import Mathlib

/-!
Verification development for the chip-design reinforcement-learning backend.

The Python sources under src/python_backend are shallowly embedded here:
floating-point scalars become rationals, numpy arrays become lists or
index-functions, and the opaque neural networks / optimizer steps (which the
specification treats as an external "parametric function" collaborator) are
passed in as explicit function parameters.  Randomness (random.random,
random.choice, random.sample, Categorical.sample) is modelled by explicit
oracle arguments: random.choice picks an index modulo the list length, and
categorical sampling is inverse-CDF sampling driven by a draw in [0, 1).
-/

/-- Indicator used for the Python float conversion of a done flag:
(1 - done) factors in the bootstrap targets. -/
def doneInd (d : Bool) : ℚ :=
  if d then 1 else 0

/-- Model of random.choice: pick an element of the list at an
oracle-determined index (uniform choice is irrelevant to the claims; only
membership matters). -/
def randomChoice (l : List ℕ) (k : ℕ) : ℕ :=
  l.getD (k % l.length) 0

/-- Embedding of the DQN action mask (dqn.py lines 108-110): a length-n
array filled with -infinity, overwritten with the Q-values at the available
indices.  -infinity is the bottom element of WithBot. -/
def maskedQ (q : ℕ → ℚ) (avail : List ℕ) (i : ℕ) : WithBot ℚ :=
  if i ∈ avail then (q i : WithBot ℚ) else ⊥

/-- Embedding of np.argmax over the masked Q-array (dqn.py line 112).
List.argmax returns the first index attaining the maximum, matching
np.argmax tie-breaking; the default 0 is never hit for a nonempty array. -/
def dqnGreedy (q : ℕ → ℚ) (n : ℕ) (avail : List ℕ) : ℕ :=
  ((List.range n).argmax fun i => maskedQ q avail i).getD 0

/-- Inverse-CDF sampling from an unnormalized mass list at threshold r:
the semantics of sampling from a categorical distribution.  Returns the
least index whose cumulative mass exceeds r. -/
def invCDF : List ℚ → ℚ → ℕ
  | [], _ => 0
  | p :: rest, r => if r < p then 0 else 1 + invCDF rest (r - p)

/-- Embedding of the renormalization masked_probs / masked_probs.sum()
shared by policy_gradient.py, actor_critic.py and ppo.py. -/
def normalizeProbs (l : List ℚ) : List ℚ :=
  l.map (· / l.sum)

/-- Embedding of the probabilistic masked selection shared verbatim by the
three policy-based agents: zero the probabilities of non-available actions,
renormalize, and sample from the resulting categorical distribution with
draw r. -/
def catSample (p : ℕ → ℚ) (n : ℕ) (avail : List ℕ) (r : ℚ) : ℕ :=
  let masked := (List.range n).map fun i => p i * (if i ∈ avail then 1 else 0)
  invCDF (normalizeProbs masked) r

lemma randomChoice_mem (l : List ℕ) (k : ℕ) (h : l ≠ []) :
    randomChoice l k ∈ l := by
  unfold randomChoice
  have hlen : 0 < l.length := List.length_pos.mpr h
  have hk : k % l.length < l.length := Nat.mod_lt _ hlen
  rw [List.getD_eq_getElem l 0 hk]
  exact l.getElem_mem hk

lemma dqnGreedy_mem (q : ℕ → ℚ) (n : ℕ) (avail : List ℕ)
    (hne : avail ≠ []) (hv : ∀ a ∈ avail, a < n) :
    dqnGreedy q n avail ∈ avail := by
  obtain ⟨a, ha⟩ := List.exists_mem_of_ne_nil avail hne
  have han : a ∈ List.range n := List.mem_range.mpr (hv a ha)
  have hrange : (List.range n) ≠ [] := List.ne_nil_of_mem han
  obtain ⟨m, hm⟩ : ∃ m, (List.range n).argmax (fun i => maskedQ q avail i) = some m := by
    rcases Option.eq_none_or_eq_some ((List.range n).argmax fun i => maskedQ q avail i) with
      h | ⟨m, hm⟩
    · exact absurd (List.argmax_eq_none.mp h) hrange
    · exact ⟨m, hm⟩
  have hle : maskedQ q avail a ≤ maskedQ q avail m :=
    List.le_of_mem_argmax han hm
  have hma : maskedQ q avail a = (q a : WithBot ℚ) := by
    simp [maskedQ, ha]
  have hg : dqnGreedy q n avail = m := by
    unfold dqnGreedy
    rw [hm]
    rfl
  rw [hg]
  by_contra hmem
  have hmb : maskedQ q avail m = ⊥ := by
    simp [maskedQ, hmem]
  rw [hma, hmb] at hle
  exact absurd hle (WithBot.not_coe_le_bot _)

lemma invCDF_mem : ∀ (l : List ℚ) (r : ℚ), (∀ x ∈ l, 0 ≤ x) → 0 ≤ r →
    r < l.sum → invCDF l r < l.length ∧ 0 < l.getD (invCDF l r) 0 := by
  intro l
  induction l with
  | nil =>
    intro r hnn hr hlt
    simp only [List.sum_nil] at hlt
    exact absurd (lt_of_le_of_lt hr hlt) (lt_irrefl 0)
  | cons p rest ih =>
    intro r hnn hr hlt
    by_cases hcase : r < p
    · refine ⟨by simp [invCDF, hcase], ?_⟩
      simpa [invCDF, hcase] using lt_of_le_of_lt hr hcase
    · push_neg at hcase
      have hr2 : 0 ≤ r - p := sub_nonneg.mpr hcase
      have hlt2 : r - p < rest.sum := by
        have := hlt
        simp only [List.sum_cons] at this
        linarith
      have hnn2 : ∀ x ∈ rest, 0 ≤ x := fun x hx => hnn x (List.mem_cons_of_mem _ hx)
      obtain ⟨h1, h2⟩ := ih (r - p) hnn2 hr2 hlt2
      have hstep : invCDF (p :: rest) r = 1 + invCDF rest (r - p) := by
        simp [invCDF, not_lt.mpr hcase]
      constructor
      · rw [hstep]
        simpa [Nat.add_comm] using Nat.succ_lt_succ h1
      · rw [hstep]
        simpa [Nat.add_comm, List.getD_cons_succ] using h2

lemma sum_map_div (l : List ℚ) (c : ℚ) : (l.map (· / c)).sum = l.sum / c := by
  induction l with
  | nil => simp
  | cons a t ih => simp [ih, add_div]

lemma sum_pos_of_mem_pos (l : List ℚ) (h0 : ∀ x ∈ l, 0 ≤ x) (x : ℚ)
    (hx : x ∈ l) (hxp : 0 < x) : 0 < l.sum := by
  induction l with
  | nil => cases hx
  | cons a t ih =>
    rcases List.mem_cons.mp hx with rfl | hxt
    · have ht : 0 ≤ t.sum :=
        List.sum_nonneg fun y hy => h0 y (List.mem_cons_of_mem _ hy)
      simpa [List.sum_cons] using add_pos_of_pos_of_nonneg hxp ht
    · have ha : 0 ≤ a := h0 a (List.mem_cons_self _ _)
      have ht := ih (fun y hy => h0 y (List.mem_cons_of_mem _ hy)) hxt
      simpa [List.sum_cons] using add_pos_of_nonneg_of_pos ha ht

lemma catSample_mem (p : ℕ → ℚ) (n : ℕ) (avail : List ℕ) (r : ℚ)
    (hne : avail ≠ []) (hv : ∀ a ∈ avail, a < n) (hp : ∀ i, 0 < p i)
    (hr0 : 0 ≤ r) (hr1 : r < 1) :
    catSample p n avail r ∈ avail := by
  obtain ⟨a, ha⟩ := List.exists_mem_of_ne_nil avail hne
  set f : ℕ → ℚ := fun i => p i * (if i ∈ avail then 1 else 0) with hf
  set masked : List ℚ := (List.range n).map f with hmasked
  have hnonneg : ∀ x ∈ masked, 0 ≤ x := by
    intro x hx
    obtain ⟨i, _, rfl⟩ := List.mem_map.mp hx
    by_cases hia : i ∈ avail <;> simp [hf, hia, le_of_lt (hp i)]
  have hfa : f a = p a := by simp [hf, ha]
  have hfa_mem : f a ∈ masked :=
    List.mem_map_of_mem f (List.mem_range.mpr (hv a ha))
  have htot : 0 < masked.sum := by
    refine sum_pos_of_mem_pos masked hnonneg (f a) hfa_mem ?_
    rw [hfa]; exact hp a
  have hsum1 : (normalizeProbs masked).sum = 1 := by
    rw [normalizeProbs, sum_map_div, div_self (ne_of_gt htot)]
  have hnn2 : ∀ x ∈ normalizeProbs masked, 0 ≤ x := by
    intro x hx
    obtain ⟨y, hy, rfl⟩ := List.mem_map.mp hx
    exact div_nonneg (hnonneg y hy) (le_of_lt htot)
  have hmain := invCDF_mem (normalizeProbs masked) r hnn2 hr0 (by rw [hsum1]; exact hr1)
  obtain ⟨hlt, hpos⟩ := hmain
  set j := invCDF (normalizeProbs masked) r with hj
  have hlen2 : (normalizeProbs masked).length = masked.length := by
    simp [normalizeProbs]
  have hlenm : masked.length = n := by simp [hmasked]
  have hjn : j < n := by
    rw [hlen2, hlenm] at hlt
    exact hlt
  have hjmask : masked.length ≤ masked.length := le_refl _
  have hgetn : (normalizeProbs masked).getD j 0 = masked.getD j 0 / masked.sum := by
    have hjlt : j < (normalizeProbs masked).length := hlt
    have hjlt2 : j < masked.length := by rw [hlen2] at hjlt; exact hjlt
    rw [List.getD_eq_getElem _ _ hjlt, List.getD_eq_getElem _ _ hjlt2]
    simp [normalizeProbs]
  have hgetm : masked.getD j 0 = f j := by
    have hjlt2 : j < masked.length := by rw [hlenm]; exact hjn
    rw [List.getD_eq_getElem _ _ hjlt2]
    simp [hmasked]
  rw [hgetn, hgetm] at hpos
  have hfj : 0 < f j := by
    have hne2 : masked.sum ≠ 0 := ne_of_gt htot
    have h2 : 0 < (f j / masked.sum) * masked.sum := mul_pos hpos htot
    rwa [div_mul_cancel₀ _ hne2] at h2
  have hcat : catSample p n avail r = j := rfl
  rw [hcat]
  by_contra hjmem
  have hz : f j = 0 := by simp [hf, hjmem]
  rw [hz] at hfj
  exact lt_irrefl 0 hfj


/-- The opaque Q-network parametric function: maps a state vector to the
Q-value of each action index.  The network internals (linear layers, ReLU,
dropout) are outside the specified core. -/
abbrev QNet : Type := List ℚ → ℕ → ℚ

/-- Abstract optimizer state (Adam moments etc.), owned by the agent and
updated only by the external optimizer step. -/
abbrev OptState : Type := List ℚ

/-- A replay-buffer transition (dqn.py line 41). -/
structure Transition where
  state : List ℚ
  action : ℕ
  reward : ℚ
  nextState : List ℚ
  done : Bool
deriving DecidableEq

/-- Embedding of ReplayBuffer (dqn.py lines 34-56): a deque with maxlen
equal to the configured capacity. -/
structure ReplayBuffer where
  capacity : ℕ
  buffer : List Transition
deriving DecidableEq

/-- Embedding of ReplayBuffer.push: deque.append drops the oldest element
when the deque already holds maxlen elements. -/
def ReplayBuffer.push (b : ReplayBuffer) (t : Transition) : ReplayBuffer :=
  let l := b.buffer ++ [t]
  { b with buffer := if b.capacity < l.length then l.drop (l.length - b.capacity) else l }

/-- A sequence of push operations, oldest first. -/
def ReplayBuffer.pushAll (b : ReplayBuffer) (ts : List Transition) : ReplayBuffer :=
  ts.foldl ReplayBuffer.push b

/-- Embedding of the DQN agent state (dqn.py lines 59-97).  The learning
rate stands for the optimizer configuration recorded at construction. -/
structure DQNAgent where
  stateSize : ℕ
  actionSize : ℕ
  lr : ℚ
  gamma : ℚ
  epsilon : ℚ
  epsilonMin : ℚ
  epsilonDecay : ℚ
  batchSize : ℕ
  targetUpdateFreq : ℕ
  updateCounter : ℕ
  qNetwork : QNet
  targetNetwork : QNet
  optimizerState : OptState
  memory : ReplayBuffer

/-- Embedding of DQNAgent.select_action (dqn.py lines 99-112): with the
epsilon-greedy draw rv below epsilon in training mode, a random choice over
the available actions; otherwise the arg-max of the masked Q-array.
The trajectory-free method returns only the chosen action. -/
def DQNAgent.selectAction (a : DQNAgent) (s : List ℚ) (avail : List ℕ)
    (training : Bool) (rv : ℚ) (k : ℕ) : ℕ :=
  if training = true ∧ rv < a.epsilon then randomChoice avail k
  else dqnGreedy (a.qNetwork s) a.actionSize avail

/-- Epsilon decay performed at the end of a completed update
(dqn.py lines 155-157): multiply by the decay factor only while epsilon is
above the floor. -/
def decayEpsilon (emin edecay e : ℚ) : ℚ :=
  if emin < e then e * edecay else e

/-- Model of random.sample over the buffer: an oracle-chosen batch of
batchSize transitions (which transitions are drawn is irrelevant to the
claims; only the per-transition target computation matters). -/
def sampleBatch (buf : List Transition) (bs : ℕ) (k : ℕ) : List Transition :=
  (buf.rotate k).take bs

/-- The first action index maximizing f over the action range, as computed
by torch max over the action dimension. -/
def argmaxAction (f : ℕ → ℚ) (n : ℕ) : ℕ :=
  ((List.range n).argmax f).getD 0

/-- Vanilla DQN bootstrap target for one sampled transition
(dqn.py lines 137-139): reward + (1 - done) * gamma * max of the target
network at the next state; computed under no_grad, hence a constant of
the optimization. -/
def dqnTargetOne (tnet : QNet) (g : ℚ) (n : ℕ) (t : Transition) : ℚ :=
  t.reward + (1 - doneInd t.done) * g * tnet t.nextState (argmaxAction (tnet t.nextState) n)

/-- Double DQN bootstrap target for one sampled transition
(dqn.py lines 196-200): the online network selects the next action, the
target network evaluates it; computed under no_grad. -/
def doubleDqnTargetOne (qnet tnet : QNet) (g : ℚ) (n : ℕ) (t : Transition) : ℚ :=
  t.reward + (1 - doneInd t.done) * g *
    tnet t.nextState (argmaxAction (qnet t.nextState) n)

/-- Mean-squared-error loss between two equal-length value lists. -/
def mseLoss (xs ys : List ℚ) : ℚ :=
  (((xs.zip ys).map fun pr => (pr.1 - pr.2) ^ 2).sum) / xs.length

/-- Embedding of DQNAgent.train_step (dqn.py lines 118-159).  The gradient
descent step on the Q-network and the Adam update are the external
parametric-function capability, passed in as upd; everything else (the
insufficient-data guard, batch sampling, target formula, loss value,
target-network sync cadence and epsilon decay) is concrete. -/
def DQNAgent.trainStep (upd : DQNAgent → List Transition → QNet × OptState)
    (k : ℕ) (a : DQNAgent) : ℚ × DQNAgent :=
  if a.memory.buffer.length < a.batchSize then (0, a)
  else
    let batch := sampleBatch a.memory.buffer a.batchSize k
    let currentQ := batch.map fun t => a.qNetwork t.state t.action
    let targetQ := batch.map (dqnTargetOne a.targetNetwork a.gamma a.actionSize)
    let loss := mseLoss currentQ targetQ
    let stepped := upd a batch
    let counter := a.updateCounter + 1
    let newTarget := if counter % a.targetUpdateFreq = 0 then stepped.1 else a.targetNetwork
    (loss, { a with
      qNetwork := stepped.1
      targetNetwork := newTarget
      optimizerState := stepped.2
      updateCounter := counter
      epsilon := decayEpsilon a.epsilonMin a.epsilonDecay a.epsilon })

/-- Embedding of DoubleDQNAgent.train_step (dqn.py lines 181-216): same
state machine as the base agent, with the Double DQN target. -/
def DQNAgent.doubleTrainStep (upd : DQNAgent → List Transition → QNet × OptState)
    (k : ℕ) (a : DQNAgent) : ℚ × DQNAgent :=
  if a.memory.buffer.length < a.batchSize then (0, a)
  else
    let batch := sampleBatch a.memory.buffer a.batchSize k
    let currentQ := batch.map fun t => a.qNetwork t.state t.action
    let targetQ := batch.map (doubleDqnTargetOne a.qNetwork a.targetNetwork a.gamma a.actionSize)
    let loss := mseLoss currentQ targetQ
    let stepped := upd a batch
    let counter := a.updateCounter + 1
    let newTarget := if counter % a.targetUpdateFreq = 0 then stepped.1 else a.targetNetwork
    (loss, { a with
      qNetwork := stepped.1
      targetNetwork := newTarget
      optimizerState := stepped.2
      updateCounter := counter
      epsilon := decayEpsilon a.epsilonMin a.epsilonDecay a.epsilon })

/-- The snapshot produced by DQNAgent.state_dict (dqn.py lines 161-168). -/
structure DQNStateDict where
  qNetwork : QNet
  targetNetwork : QNet
  optimizer : OptState
  epsilon : ℚ

/-- Embedding of DQNAgent.state_dict. -/
def DQNAgent.stateDict (a : DQNAgent) : DQNStateDict :=
  { qNetwork := a.qNetwork
    targetNetwork := a.targetNetwork
    optimizer := a.optimizerState
    epsilon := a.epsilon }

/-- Embedding of DQNAgent.load_state_dict (dqn.py lines 170-175). -/
def DQNAgent.loadStateDict (a : DQNAgent) (sd : DQNStateDict) : DQNAgent :=
  { a with
    qNetwork := sd.qNetwork
    targetNetwork := sd.targetNetwork
    optimizerState := sd.optimizer
    epsilon := sd.epsilon }

/-- Embedding of the DQNAgent constructor (dqn.py lines 62-97): the target
network starts as a copy of the online network, the optimizer is configured
with the supplied learning rate, and the replay buffer is empty.  The
randomly initialized network and fresh optimizer state come from the
external parametric-function collaborator as initQ and initOpt. -/
def mkDQNAgent (stateSize actionSize : ℕ)
    (learningRate gma eps epsMin epsDecay : ℚ)
    (bufferSize batchSize targetUpdateFreq : ℕ)
    (initQ : QNet) (initOpt : OptState) : DQNAgent :=
  { stateSize := stateSize
    actionSize := actionSize
    lr := learningRate
    gamma := gma
    epsilon := eps
    epsilonMin := epsMin
    epsilonDecay := epsDecay
    batchSize := batchSize
    targetUpdateFreq := targetUpdateFreq
    updateCounter := 0
    qNetwork := initQ
    targetNetwork := initQ
    optimizerState := initOpt
    memory := { capacity := bufferSize, buffer := [] } }

/-- Embedding of the DuelingDQNAgent constructor (dqn.py lines 222-230):
it first runs the base constructor, then replaces both networks with the
dueling architecture and rebuilds the optimizer with the hardcoded
learning rate 0.001, discarding the learning_rate argument. -/
def mkDuelingDQNAgent (stateSize actionSize : ℕ)
    (learningRate gma eps epsMin epsDecay : ℚ)
    (bufferSize batchSize targetUpdateFreq : ℕ)
    (initQ : QNet) (initOpt : OptState) (duelingQ : QNet) : DQNAgent :=
  let base := mkDQNAgent stateSize actionSize learningRate gma eps epsMin epsDecay
    bufferSize batchSize targetUpdateFreq initQ initOpt
  { base with
    qNetwork := duelingQ
    targetNetwork := duelingQ
    lr := 1 / 1000 }

/-- Embedding of DuelingQNetwork.forward (dqn.py lines 260-268): the two
streams are combined as Q = V + (A - mean(A)), the mean taken over the
action dimension. -/
def duelingForward (value : ℚ) (advantage : ℕ → ℚ) (n : ℕ) (act : ℕ) : ℚ :=
  value + (advantage act - ((List.range n).map advantage).sum / n)


/-- The opaque policy parametric function after the softmax of
get_action_probs: maps a state vector to the probability of each action.
Softmax outputs are strictly positive, which theorems take as a
hypothesis. -/
abbrev ProbNet : Type := List ℚ → ℕ → ℚ

/-- The opaque critic parametric function: maps a state to a scalar
state-value estimate. -/
abbrev ValueNet : Type := List ℚ → ℚ

/-- Embedding of the PolicyGradientAgent state
(policy_gradient.py lines 42-66). -/
structure PolicyGradientAgent where
  stateSize : ℕ
  actionSize : ℕ
  gamma : ℚ
  policyProbs : ProbNet
  optimizerState : OptState
  savedLogProbs : List ℚ
  rewards : List ℚ

/-- Embedding of PolicyGradientAgent.select_action
(policy_gradient.py lines 73-96): evaluate the policy probabilities, zero
non-available actions, renormalize and sample.  The training-mode append of
the sampled log-probability to the episode buffer is a side effect on the
buffers held as structure fields and does not affect the returned action. -/
def PolicyGradientAgent.selectAction (a : PolicyGradientAgent) (s : List ℚ)
    (avail : List ℕ) (r : ℚ) : ℕ :=
  catSample (a.policyProbs s) a.actionSize avail r

/-- Backward discounted-return pass shared by REINFORCE and Actor-Critic
(policy_gradient.py lines 110-114, actor_critic.py lines 134-140):
G = r + gamma * G walked from the end of the episode, inserted at the
front. -/
def discountedReturns (g : ℚ) (rewards : List ℚ) : List ℚ :=
  rewards.foldr (fun r acc => (r + g * acc.headD 0) :: acc) []

/-- Standardization of a return/advantage list: subtract the mean, divide
by the standard deviation plus 1e-8.  The square root inside torch.std is
irrational, so the std primitive is passed in as a function. -/
def standardize (std : List ℚ → ℚ) (l : List ℚ) : List ℚ :=
  l.map fun x => (x - l.sum / l.length) / (std l + 1 / 100000000)

/-- Embedding of PolicyGradientAgent.train_step
(policy_gradient.py lines 102-137): empty-episode guard, discounted
returns, standardization, summed negative-log-prob loss, one external
optimizer step, unconditional buffer clear. -/
def PolicyGradientAgent.trainStep (std : List ℚ → ℚ)
    (upd : PolicyGradientAgent → List ℚ → ProbNet × OptState)
    (a : PolicyGradientAgent) : ℚ × PolicyGradientAgent :=
  if a.rewards.length = 0 then (0, a)
  else
    let returns := standardize std (discountedReturns a.gamma a.rewards)
    let loss := ((a.savedLogProbs.zip returns).map fun pr => -pr.1 * pr.2).sum
    let stepped := upd a returns
    (loss, { a with
      policyProbs := stepped.1
      optimizerState := stepped.2
      savedLogProbs := []
      rewards := [] })

/-- Embedding of the ActorCriticAgent state (actor_critic.py lines 56-93). -/
structure ActorCriticAgent where
  stateSize : ℕ
  actionSize : ℕ
  gamma : ℚ
  valueLossCoef : ℚ
  entropyCoef : ℚ
  actorProbs : ProbNet
  critic : ValueNet
  actorOptimizer : OptState
  criticOptimizer : OptState
  savedLogProbs : List ℚ
  values : List ℚ
  rewards : List ℚ
  entropies : List ℚ

/-- Embedding of ActorCriticAgent.select_action
(actor_critic.py lines 95-122): identical masking and sampling to the
policy-gradient agent; the critic value is evaluated alongside but does not
influence the returned action. -/
def ActorCriticAgent.selectAction (a : ActorCriticAgent) (s : List ℚ)
    (avail : List ℕ) (r : ℚ) : ℕ :=
  catSample (a.actorProbs s) a.actionSize avail r

/-- Mean of a list of rationals (sum / length). -/
def listMean (l : List ℚ) : ℚ :=
  l.sum / l.length

/-- Embedding of ActorCriticAgent.train_step (actor_critic.py lines
128-184): empty-episode guard, discounted returns, standardization,
advantage = standardized return minus detached critic value, mean actor
loss with entropy bonus, critic MSE loss, two independent external
optimizer steps, unconditional buffer clear. -/
def ActorCriticAgent.trainStep (std : List ℚ → ℚ)
    (updActor : ActorCriticAgent → List ℚ → ProbNet × OptState)
    (updCritic : ActorCriticAgent → List ℚ → ValueNet × OptState)
    (a : ActorCriticAgent) : (ℚ × ℚ) × ActorCriticAgent :=
  if a.rewards.length = 0 then ((0, 0), a)
  else
    let returns := standardize std (discountedReturns a.gamma a.rewards)
    let advantages := List.zipWith (fun ret v => ret - v) returns a.values
    let entropyLoss := -a.entropyCoef * listMean a.entropies
    let actorLoss :=
      listMean ((a.savedLogProbs.zip advantages).map fun pr => -pr.1 * pr.2) + entropyLoss
    let criticLoss := mseLoss a.values returns
    let steppedActor := updActor a advantages
    let steppedCritic := updCritic a returns
    ((actorLoss, criticLoss), { a with
      actorProbs := steppedActor.1
      actorOptimizer := steppedActor.2
      critic := steppedCritic.1
      criticOptimizer := steppedCritic.2
      savedLogProbs := []
      values := []
      rewards := []
      entropies := [] })

/-- The PPO shared network after softmax: probabilities for each action
together with the scalar value estimate (ppo.py lines 42-46). -/
abbrev PolicyValueNet : Type := List ℚ → (ℕ → ℚ) × ℚ

/-- Embedding of the PPOAgent state (ppo.py lines 49-94). -/
structure PPOAgent where
  stateSize : ℕ
  actionSize : ℕ
  gamma : ℚ
  epsilonClip : ℚ
  valueLossCoef : ℚ
  entropyCoef : ℚ
  gaeLambda : ℚ
  ppoEpochs : ℕ
  batchSize : ℕ
  policy : PolicyValueNet
  optimizerState : OptState
  states : List (List ℚ)
  actions : List ℕ
  rewards : List ℚ
  values : List ℚ
  logProbs : List ℚ
  dones : List Bool

/-- Embedding of PPOAgent.select_action (ppo.py lines 96-120): identical
masking and renormalized categorical sampling; the training-mode appends to
the trajectory buffers are side effects on the structure fields and do not
affect the returned action. -/
def PPOAgent.selectAction (a : PPOAgent) (s : List ℚ)
    (avail : List ℕ) (r : ℚ) : ℕ :=
  catSample (a.policy s).1 a.actionSize avail r

/-- The backward GAE loop of PPOAgent.compute_gae (ppo.py lines 132-144),
run over rewards, dones, and the value list with the appended bootstrap:
at each step delta = r + gamma * values[t+1] * (1 - done) - values[t] and
gae = delta + gamma * lambda * (1 - done) * gae, inserted at the front of
the advantage list. -/
def gaeList (g lam : ℚ) : List ℚ → List Bool → List ℚ → List ℚ
  | r :: rs, d :: ds, v :: vs =>
    let rest := gaeList g lam rs ds vs
    let nd : ℚ := 1 - doneInd d
    let delta := r + g * vs.headD 0 * nd - v
    (delta + g * lam * nd * rest.headD 0) :: rest
  | _, _, _ => []

/-- Embedding of PPOAgent.compute_gae (ppo.py lines 127-149): append the
bootstrap value 0, run the backward loop, and return the advantages
together with returns = advantage + value. -/
def PPOAgent.computeGae (a : PPOAgent) : List ℚ × List ℚ :=
  let advantages := gaeList a.gamma a.gaeLambda a.rewards a.dones (a.values ++ [0])
  (advantages, List.zipWith (fun adv v => adv + v) advantages a.values)

/-- Embedding of PPOAgent.train_step (ppo.py lines 151-218): empty-rollout
guard, GAE advantages and returns, advantage standardization, the
fixed-epoch loop whose per-epoch clipped-surrogate gradient step is the
external parametric-function capability epochUpd (it returns the epoch
losses and the updated network and optimizer), loss averaging over the
epochs, and the unconditional trajectory reset. -/
def PPOAgent.trainStep (std : List ℚ → ℚ)
    (epochUpd : PPOAgent → List ℚ → List ℚ → ℕ → (ℚ × ℚ × ℚ) × PolicyValueNet × OptState)
    (a : PPOAgent) : (ℚ × ℚ × ℚ) × PPOAgent :=
  if a.states.length = 0 then ((0, 0, 0), a)
  else
    let gae := a.computeGae
    let advN := standardize std gae.1
    let final := (List.range a.ppoEpochs).foldl
      (fun acc i =>
        let stepped := epochUpd { a with policy := acc.2.1, optimizerState := acc.2.2 }
          advN gae.2 i
        ((acc.1.1 + stepped.1.1, acc.1.2.1 + stepped.1.2.1, acc.1.2.2 + stepped.1.2.2),
          stepped.2))
      ((0, 0, 0), (a.policy, a.optimizerState))
    let ne : ℚ := a.ppoEpochs
    ((final.1.1 / ne, final.1.2.1 / ne, final.1.2.2 / ne), { a with
      policy := final.2.1
      optimizerState := final.2.2
      states := []
      actions := []
      rewards := []
      values := []
      logProbs := []
      dones := [] })


/-- A value stored in a Python checkpoint dictionary: the server-assigned
timestamp string, a metadata sub-dictionary, or any other payload
(parameters, scalars), abstracted as an opaque tag. -/
inductive PyVal where
  | str : String → PyVal
  | metaDict : List (String × String) → PyVal
  | payload : ℕ → PyVal
deriving DecidableEq

/-- A Python dictionary keyed by strings, in insertion order. -/
abbrev PyDict : Type := List (String × PyVal)

/-- Python dictionary assignment d[k] = v: replace the value in place when
the key is present, otherwise append the new entry. -/
def setKey (d : PyDict) (k : String) (v : PyVal) : PyDict :=
  if d.any (fun pr => pr.1 = k) then
    d.map fun pr => if pr.1 = k then (k, v) else pr
  else d ++ [(k, v)]

/-- Python truthiness of the optional metadata argument: None and the
empty dictionary are falsy, a non-empty dictionary is truthy. -/
def metadataTruthy (m : Option (List (String × String))) : Bool :=
  match m with
  | some (_ :: _) => true
  | _ => false

/-- Embedding of CheckpointManager.save's mutation of the caller's
checkpoint dictionary (checkpoint.py lines 42-54): under the truthiness
test of the metadata argument the metadata key is assigned, then the
server-assigned timestamp ts is assigned unconditionally.  The subsequent
torch.save and sidecar-JSON write do not touch the dictionary further. -/
def checkpointSave (ts : String) (checkpoint : PyDict)
    (metadata : Option (List (String × String))) : PyDict :=
  setKey
    (if metadataTruthy metadata
      then setKey checkpoint ("metadata") (PyVal.metaDict (metadata.getD []))
      else checkpoint)
    ("timestamp") (PyVal.str ts)

/-- Embedding of CheckpointManager.load (checkpoint.py lines 74-111),
generic in the stored blob, the snapshot type and the error type of the
external torch.load deserializer.  The filesystem is a map from path to
blob; os.path.isfile is membership.  The body runs inside try/except:
any raised error is caught and turned into None. -/
def checkpointLoad {Blob Snap Err : Type} (torchLoad : Blob → Except Err Snap)
    (fs : List (String × Blob)) (dir name : String) : Option Snap :=
  let path := if (fs.lookup name).isSome then name else dir ++ "/" ++ name ++ ".pt"
  let body : Except Err (Option Snap) :=
    match fs.lookup path with
    | none => Except.ok none
    | some blob => (torchLoad blob).map some
  match body with
  | Except.ok v => v
  | Except.error _ => none


lemma push_capacity (b : ReplayBuffer) (t : Transition) :
    (b.push t).capacity = b.capacity := rfl

lemma push_length_le (b : ReplayBuffer) (t : Transition) :
    (b.push t).buffer.length ≤ b.capacity := by
  unfold ReplayBuffer.push
  by_cases hc : b.capacity < (b.buffer ++ [t]).length
  · simp only [hc, if_true, List.length_drop]
    omega
  · simp only [hc, if_false]
    omega

lemma push_buffer (b : ReplayBuffer) (t : Transition) :
    (b.push t).buffer = (b.buffer ++ [t]).drop (b.buffer.length + 1 - b.capacity) := by
  have hlen : (b.buffer ++ [t]).length = b.buffer.length + 1 := by simp
  show (if b.capacity < (b.buffer ++ [t]).length then
      (b.buffer ++ [t]).drop ((b.buffer ++ [t]).length - b.capacity)
    else b.buffer ++ [t])
    = (b.buffer ++ [t]).drop (b.buffer.length + 1 - b.capacity)
  by_cases hc : b.capacity < (b.buffer ++ [t]).length
  · rw [if_pos hc, hlen]
  · rw [if_neg hc]
    rw [hlen] at hc
    have h0 : b.buffer.length + 1 - b.capacity = 0 := by omega
    rw [h0, List.drop_zero]

lemma pushAll_buffer : ∀ (ts : List Transition) (b : ReplayBuffer),
    b.buffer.length ≤ b.capacity →
    (b.pushAll ts).buffer =
      (b.buffer ++ ts).drop (b.buffer.length + ts.length - b.capacity) := by
  intro ts
  induction ts with
  | nil =>
    intro b h
    simp only [ReplayBuffer.pushAll, List.foldl_nil, List.append_nil, List.length_nil,
      Nat.add_zero]
    have h0 : b.buffer.length - b.capacity = 0 := by omega
    rw [h0, List.drop_zero]
  | cons t ts ih =>
    intro b h
    have hstep : b.pushAll (t :: ts) = (b.push t).pushAll ts := rfl
    rw [hstep, ih (b.push t) (by rw [push_capacity]; exact push_length_le b t)]
    rw [push_capacity, push_buffer b t]
    by_cases hc : b.buffer.length < b.capacity
    · have h1 : b.buffer.length + 1 - b.capacity = 0 := by omega
      rw [h1, List.drop_zero]
      have h2 : (b.buffer ++ [t]).length + ts.length - b.capacity
          = b.buffer.length + (t :: ts).length - b.capacity := by
        simp only [List.length_append, List.length_cons, List.length_nil]
        omega
      rw [h2, List.append_assoc]
      simp only [List.singleton_append]
    · have hcap : b.buffer.length = b.capacity := by omega
      have h1 : b.buffer.length + 1 - b.capacity = 1 := by omega
      rw [h1]
      have hlen1 : ((b.buffer ++ [t]).drop 1).length = b.buffer.length := by
        rw [List.length_drop, List.length_append]
        simp
      rw [hlen1]
      have h2 : b.buffer.length + ts.length - b.capacity = ts.length := by omega
      have h3 : b.buffer.length + (t :: ts).length - b.capacity = ts.length + 1 := by
        simp only [List.length_cons]
        omega
      rw [h2, h3]
      have h4 : (1 : ℕ) ≤ (b.buffer ++ [t]).length := by
        rw [List.length_append]; simp
      rw [← List.drop_append_of_le_length h4]
      rw [List.drop_drop]
      have h5 : b.buffer ++ [t] ++ ts = b.buffer ++ t :: ts := by
        simp
      rw [h5, Nat.add_comm 1 ts.length]

lemma getD_zipWith_add : ∀ (l1 l2 : List ℚ) (t : ℕ), t < l1.length → t < l2.length →
    (List.zipWith (fun x y => x + y) l1 l2).getD t 0 = l1.getD t 0 + l2.getD t 0 := by
  intro l1
  induction l1 with
  | nil => intro l2 t h1 _; simp at h1
  | cons a l1 ih =>
    intro l2 t h1 h2
    cases l2 with
    | nil => simp at h2
    | cons b l2 =>
      cases t with
      | zero => simp
      | succ t =>
        simp only [List.zipWith_cons_cons, List.getD_cons_succ]
        exact ih l2 t (by simpa using h1) (by simpa using h2)

lemma gaeList_length_le (g lam : ℚ) : ∀ (rs : List ℚ) (ds : List Bool) (vs : List ℚ),
    (gaeList g lam rs ds vs).length ≤ rs.length := by
  intro rs
  induction rs with
  | nil => intro ds vs; cases ds <;> cases vs <;> simp [gaeList]
  | cons r rs ih =>
    intro ds vs
    cases ds with
    | nil => simp [gaeList]
    | cons d ds =>
      cases vs with
      | nil => simp [gaeList]
      | cons v vs =>
        simp only [gaeList, List.length_cons]
        exact Nat.succ_le_succ (ih ds vs)

lemma gaeList_length_eq (g lam : ℚ) : ∀ (rs : List ℚ) (ds : List Bool) (vs : List ℚ),
    ds.length = rs.length → vs.length = rs.length + 1 →
    (gaeList g lam rs ds vs).length = rs.length := by
  intro rs
  induction rs with
  | nil => intro ds vs _ _; cases ds <;> cases vs <;> simp [gaeList]
  | cons r rs ih =>
    intro ds vs hd hv
    cases ds with
    | nil => simp at hd
    | cons d ds =>
      cases vs with
      | nil => simp at hv
      | cons v vs =>
        simp only [gaeList, List.length_cons]
        rw [ih ds vs (by simpa using hd) (by simpa using hv)]

lemma gaeList_getD (g lam : ℚ) : ∀ (rs : List ℚ) (ds : List Bool) (vs : List ℚ) (t : ℕ),
    ds.length = rs.length → vs.length = rs.length + 1 → t < rs.length →
    (gaeList g lam rs ds vs).getD t 0 =
      (rs.getD t 0 + g * vs.getD (t + 1) 0 * (1 - doneInd (ds.getD t false))
        - vs.getD t 0)
      + g * lam * (1 - doneInd (ds.getD t false)) * (gaeList g lam rs ds vs).getD (t + 1) 0 := by
  intro rs
  induction rs with
  | nil => intro ds vs t _ _ ht; simp at ht
  | cons r rs ih =>
    intro ds vs t hd hv ht
    cases ds with
    | nil => simp at hd
    | cons d ds =>
      cases vs with
      | nil => simp at hv
      | cons v vs =>
        cases t with
        | zero =>
          have hhead : ∀ (xs : List ℚ), xs.headD (0 : ℚ) = xs.getD 0 0 := by
            intro xs
            cases xs <;> rfl
          simp only [gaeList, List.getD_cons_zero, List.getD_cons_succ, hhead]
        | succ t =>
          simp only [gaeList, List.getD_cons_succ]
          exact ih ds vs t (by simpa using hd) (by simpa using hv) (by simpa using ht)


lemma lookup_cons_key {β : Type} (k a : String) (v : β) (es : List (String × β)) :
    ((a, v) :: es).lookup k = if k = a then some v else es.lookup k := by
  by_cases h : k = a
  · simp [List.lookup, h]
  · have hb : (k == a) = false := beq_false_of_ne h
    simp [List.lookup, h, hb]

lemma lookup_map_set : ∀ (d : PyDict) (k : String) (v : PyVal),
    d.any (fun pr => pr.1 = k) = true →
    (d.map fun pr => if pr.1 = k then (k, v) else pr).lookup k = some v := by
  intro d
  induction d with
  | nil => intro k v h; simp at h
  | cons a rest ih =>
    intro k v h
    obtain ⟨a1, a2⟩ := a
    by_cases hk : a1 = k
    · simp only [List.map_cons, if_pos hk]
      rw [lookup_cons_key, if_pos rfl]
    · have h2 : rest.any (fun pr => pr.1 = k) = true := by
        simp only [List.any_cons, Bool.or_eq_true, decide_eq_true_eq] at h
        rcases h with h | h
        · exact absurd h hk
        · exact h
      simp only [List.map_cons, if_neg hk]
      rw [lookup_cons_key, if_neg (fun hc => hk hc.symm)]
      exact ih k v h2

lemma any_eq_false_lookup_none : ∀ (d : PyDict) (k : String),
    d.any (fun pr => pr.1 = k) = false → d.lookup k = none := by
  intro d
  induction d with
  | nil => intro k _; rfl
  | cons a rest ih =>
    intro k h
    obtain ⟨a1, a2⟩ := a
    simp only [List.any_cons, Bool.or_eq_false_iff, decide_eq_false_iff_not] at h
    rw [lookup_cons_key, if_neg (fun hc => h.1 hc.symm)]
    exact ih k (by simpa using h.2)

lemma lookup_append_sing : ∀ (d : PyDict) (k : String) (v : PyVal),
    d.lookup k = none → (d ++ [(k, v)]).lookup k = some v := by
  intro d
  induction d with
  | nil => intro k v _; rw [List.nil_append, lookup_cons_key, if_pos rfl]
  | cons a rest ih =>
    intro k v h
    obtain ⟨a1, a2⟩ := a
    rw [lookup_cons_key] at h
    by_cases hk : k = a1
    · rw [if_pos hk] at h; cases h
    · rw [if_neg hk] at h
      rw [List.cons_append, lookup_cons_key, if_neg hk]
      exact ih k v h

lemma lookup_append_sing_ne : ∀ (d : PyDict) (k k2 : String) (v : PyVal), k2 ≠ k →
    (d ++ [(k, v)]).lookup k2 = d.lookup k2 := by
  intro d
  induction d with
  | nil =>
    intro k k2 v h
    rw [List.nil_append, lookup_cons_key, if_neg h]
  | cons a rest ih =>
    intro k k2 v h
    obtain ⟨a1, a2⟩ := a
    rw [List.cons_append, lookup_cons_key, lookup_cons_key]
    by_cases hk : k2 = a1
    · rw [if_pos hk, if_pos hk]
    · rw [if_neg hk, if_neg hk]
      exact ih k k2 v h

lemma lookup_map_set_ne : ∀ (d : PyDict) (k k2 : String) (v : PyVal), k2 ≠ k →
    (d.map fun pr => if pr.1 = k then (k, v) else pr).lookup k2 = d.lookup k2 := by
  intro d
  induction d with
  | nil => intro k k2 v _; rfl
  | cons a rest ih =>
    intro k k2 v h
    obtain ⟨a1, a2⟩ := a
    by_cases hk : a1 = k
    · simp only [List.map_cons, if_pos hk]
      rw [lookup_cons_key, lookup_cons_key, if_neg h]
      have hk2 : ¬ k2 = a1 := by rw [hk]; exact h
      rw [if_neg hk2]
      exact ih k k2 v h
    · simp only [List.map_cons, if_neg hk]
      rw [lookup_cons_key, lookup_cons_key]
      by_cases hk2 : k2 = a1
      · rw [if_pos hk2, if_pos hk2]
      · rw [if_neg hk2, if_neg hk2]
        exact ih k k2 v h

lemma lookup_setKey_self (d : PyDict) (k : String) (v : PyVal) :
    (setKey d k v).lookup k = some v := by
  unfold setKey
  by_cases hany : d.any (fun pr => pr.1 = k) = true
  · rw [if_pos hany]
    exact lookup_map_set d k v hany
  · have hf : d.any (fun pr => pr.1 = k) = false := by
      revert hany
      cases d.any (fun pr => pr.1 = k) <;> simp
    rw [if_neg hany]
    exact lookup_append_sing d k v (any_eq_false_lookup_none d k hf)

lemma lookup_setKey_ne (d : PyDict) (k k2 : String) (v : PyVal) (h : k2 ≠ k) :
    (setKey d k v).lookup k2 = d.lookup k2 := by
  unfold setKey
  by_cases hany : d.any (fun pr => pr.1 = k) = true
  · rw [if_pos hany]
    exact lookup_map_set_ne d k k2 v h
  · rw [if_neg hany]
    exact lookup_append_sing_ne d k k2 v h


/-- C1: for every agent variant (DQN, Policy Gradient, Actor-Critic, PPO),
every state vector, every non-empty list of valid available action indices,
and both training modes, select_action returns a member of
availableActions: the value-based agent restricts both its random branch
and its masked arg-max to availableActions, and the probabilistic agents
zero the probability of non-available actions and renormalize before
sampling.  For the probabilistic agents the training flag only toggles
gradient recording and trajectory storage, not the returned sample, and the
strict positivity of the softmax output is recorded as a hypothesis. -/
theorem selectAction_mem_available :
    (∀ (a : DQNAgent) (s : List ℚ) (avail : List ℕ) (training : Bool) (rv : ℚ) (k : ℕ),
      avail ≠ [] → (∀ x ∈ avail, x < a.actionSize) →
      a.selectAction s avail training rv k ∈ avail)
    ∧ (∀ (a : PolicyGradientAgent) (s : List ℚ) (avail : List ℕ) (r : ℚ),
      avail ≠ [] → (∀ x ∈ avail, x < a.actionSize) →
      (∀ i, 0 < a.policyProbs s i) → 0 ≤ r → r < 1 →
      a.selectAction s avail r ∈ avail)
    ∧ (∀ (a : ActorCriticAgent) (s : List ℚ) (avail : List ℕ) (r : ℚ),
      avail ≠ [] → (∀ x ∈ avail, x < a.actionSize) →
      (∀ i, 0 < a.actorProbs s i) → 0 ≤ r → r < 1 →
      a.selectAction s avail r ∈ avail)
    ∧ (∀ (a : PPOAgent) (s : List ℚ) (avail : List ℕ) (r : ℚ),
      avail ≠ [] → (∀ x ∈ avail, x < a.actionSize) →
      (∀ i, 0 < (a.policy s).1 i) → 0 ≤ r → r < 1 →
      a.selectAction s avail r ∈ avail) := by
  refine ⟨?_, ?_, ?_, ?_⟩
  · intro a s avail training rv k hne hv
    unfold DQNAgent.selectAction
    by_cases hb : training = true ∧ rv < a.epsilon
    · rw [if_pos hb]
      exact randomChoice_mem avail k hne
    · rw [if_neg hb]
      exact dqnGreedy_mem _ _ _ hne hv
  · intro a s avail r hne hv hp hr0 hr1
    exact catSample_mem _ _ _ _ hne hv hp hr0 hr1
  · intro a s avail r hne hv hp hr0 hr1
    exact catSample_mem _ _ _ _ hne hv hp hr0 hr1
  · intro a s avail r hne hv hp hr0 hr1
    exact catSample_mem _ _ _ _ hne hv hp hr0 hr1

/-- Concrete DQN agent used by witnesses. -/
def wDqn : DQNAgent :=
  { stateSize := 2
    actionSize := 3
    lr := 1 / 100
    gamma := 99 / 100
    epsilon := 1 / 2
    epsilonMin := 1 / 100
    epsilonDecay := 995 / 1000
    batchSize := 2
    targetUpdateFreq := 10
    updateCounter := 0
    qNetwork := fun _ i => i
    targetNetwork := fun _ _ => 0
    optimizerState := []
    memory := { capacity := 5, buffer := [] } }

/-- Concrete policy-gradient agent used by witnesses. -/
def wPg : PolicyGradientAgent :=
  { stateSize := 2
    actionSize := 3
    gamma := 99 / 100
    policyProbs := fun _ _ => 1 / 3
    optimizerState := []
    savedLogProbs := []
    rewards := [] }

/-- Concrete actor-critic agent used by witnesses. -/
def wAc : ActorCriticAgent :=
  { stateSize := 2
    actionSize := 3
    gamma := 99 / 100
    valueLossCoef := 1 / 2
    entropyCoef := 1 / 100
    actorProbs := fun _ _ => 1 / 3
    critic := fun _ => 0
    actorOptimizer := []
    criticOptimizer := []
    savedLogProbs := []
    values := []
    rewards := []
    entropies := [] }

/-- Concrete PPO agent used by witnesses. -/
def wPpo : PPOAgent :=
  { stateSize := 2
    actionSize := 3
    gamma := 99 / 100
    epsilonClip := 1 / 5
    valueLossCoef := 1 / 2
    entropyCoef := 1 / 100
    gaeLambda := 95 / 100
    ppoEpochs := 4
    batchSize := 64
    policy := fun _ => (fun _ => 1 / 3, 0)
    optimizerState := []
    states := []
    actions := []
    rewards := []
    values := []
    logProbs := []
    dones := [] }

theorem selectAction_mem_available_witness :
    wDqn.selectAction [1, 0] [1, 2] true (1 / 4) 7 ∈ [1, 2]
    ∧ wPg.selectAction [1, 0] [0, 2] (1 / 3) ∈ [0, 2]
    ∧ wAc.selectAction [1, 0] [2] (2 / 3) ∈ [2]
    ∧ wPpo.selectAction [1, 0] [0, 1] 0 ∈ [0, 1] :=
  ⟨selectAction_mem_available.1 wDqn [1, 0] [1, 2] true (1 / 4) 7 (by decide)
      (by intro x hx; fin_cases hx <;> decide),
    selectAction_mem_available.2.1 wPg [1, 0] [0, 2] (1 / 3) (by decide)
      (by intro x hx; fin_cases hx <;> decide)
      (by intro i; show (0 : ℚ) < 1 / 3; norm_num) (by norm_num) (by norm_num),
    selectAction_mem_available.2.2.1 wAc [1, 0] [2] (2 / 3) (by decide)
      (by intro x hx; fin_cases hx <;> decide)
      (by intro i; show (0 : ℚ) < 1 / 3; norm_num) (by norm_num) (by norm_num),
    selectAction_mem_available.2.2.2 wPpo [1, 0] [0, 1] 0 (by decide)
      (by intro x hx; fin_cases hx <;> decide)
      (by intro i; show (0 : ℚ) < 1 / 3; norm_num) (by norm_num) (by norm_num)⟩


/-- A trivial external optimizer step that leaves the network and optimizer
state unchanged; used to instantiate train steps at concrete inputs. -/
def updNoop : DQNAgent → List Transition → QNet × OptState :=
  fun a _ => (a.qNetwork, a.optimizerState)

/-- A concrete DQN agent sitting just above its exploration floor with
enough replay data for a completed update. -/
def cexEpsAgent : DQNAgent :=
  { stateSize := 1
    actionSize := 1
    lr := 1 / 100
    gamma := 99 / 100
    epsilon := 3 / 2
    epsilonMin := 1
    epsilonDecay := 1 / 2
    batchSize := 1
    targetUpdateFreq := 10
    updateCounter := 0
    qNetwork := fun _ _ => 0
    targetNetwork := fun _ _ => 0
    optimizerState := []
    memory := { capacity := 5, buffer := [⟨[0], 0, 0, [0], false⟩] } }

/-- C2 counterexample: the code multiplies epsilon by the decay factor
whenever it is above the floor, with no clamp, so one completed train_step
update can leave epsilon strictly below epsilon_min.  Here the decay factor
1/2 lies in (0,1), epsilon starts at 3/2 above the floor 1, the replay
buffer holds a full batch, and after the completed update epsilon is 3/4,
strictly below the floor. -/
theorem epsilon_below_floor_counterexample :
    0 < cexEpsAgent.epsilonDecay ∧ cexEpsAgent.epsilonDecay < 1
    ∧ cexEpsAgent.epsilonMin < cexEpsAgent.epsilon
    ∧ ¬ (cexEpsAgent.memory.buffer.length < cexEpsAgent.batchSize)
    ∧ (DQNAgent.trainStep updNoop 0 cexEpsAgent).2.epsilon
        < cexEpsAgent.epsilonMin := by
  refine ⟨by norm_num [cexEpsAgent], by norm_num [cexEpsAgent],
    by norm_num [cexEpsAgent], by decide, ?_⟩
  show (DQNAgent.trainStep updNoop 0 cexEpsAgent).2.epsilon < 1
  unfold DQNAgent.trainStep
  rw [if_neg (by decide)]
  show decayEpsilon cexEpsAgent.epsilonMin cexEpsAgent.epsilonDecay cexEpsAgent.epsilon < 1
  norm_num [decayEpsilon, cexEpsAgent]

/-- C2 amended: for both members of the DQN family (the base agent's
train_step and the Double DQN agent's train_step), epsilon after each
completed update is multiplied by epsilon_decay whenever it was above the
floor, and although it can end strictly below epsilon_min, it never falls
below epsilon_min * epsilon_decay; starting at or above that bound every
iterate of the decay stays at or above it. -/
theorem epsilon_decay_floor (emin edecay e0 : ℚ) (hd : 0 < edecay)
    (h0 : emin * edecay ≤ e0) :
    (∀ n, emin * edecay ≤ (decayEpsilon emin edecay)^[n] e0)
    ∧ (∀ e, emin < e → decayEpsilon emin edecay e = e * edecay)
    ∧ (∀ upd k (a : DQNAgent), a.batchSize ≤ a.memory.buffer.length →
        (DQNAgent.trainStep upd k a).2.epsilon
          = decayEpsilon a.epsilonMin a.epsilonDecay a.epsilon)
    ∧ (∀ upd k (a : DQNAgent), a.batchSize ≤ a.memory.buffer.length →
        (DQNAgent.doubleTrainStep upd k a).2.epsilon
          = decayEpsilon a.epsilonMin a.epsilonDecay a.epsilon) := by
  refine ⟨?_, ?_, ?_, ?_⟩
  · intro n
    induction n with
    | zero => simpa using h0
    | succ n ih =>
      rw [Function.iterate_succ_apply']
      set y := (decayEpsilon emin edecay)^[n] e0
      unfold decayEpsilon
      by_cases hy : emin < y
      · rw [if_pos hy]
        calc emin * edecay ≤ y * edecay :=
              mul_le_mul_of_nonneg_right (le_of_lt hy) (le_of_lt hd)
          _ = y * edecay := rfl
      · rw [if_neg hy]
        exact ih
  · intro e he
    simp [decayEpsilon, he]
  · intro upd k a hlen
    unfold DQNAgent.trainStep
    rw [if_neg (Nat.not_lt.mpr hlen)]
  · intro upd k a hlen
    unfold DQNAgent.doubleTrainStep
    rw [if_neg (Nat.not_lt.mpr hlen)]

theorem epsilon_decay_floor_witness :
    (0 : ℚ) < 995 / 1000 ∧ (1 / 100 : ℚ) * (995 / 1000) ≤ 1
    ∧ ((∀ n, (1 / 100 : ℚ) * (995 / 1000)
          ≤ (decayEpsilon (1 / 100) (995 / 1000))^[n] 1)
      ∧ (∀ e, (1 / 100 : ℚ) < e
          → decayEpsilon (1 / 100) (995 / 1000) e = e * (995 / 1000))
      ∧ (∀ upd k (a : DQNAgent), a.batchSize ≤ a.memory.buffer.length →
          (DQNAgent.trainStep upd k a).2.epsilon
            = decayEpsilon a.epsilonMin a.epsilonDecay a.epsilon)
      ∧ (∀ upd k (a : DQNAgent), a.batchSize ≤ a.memory.buffer.length →
          (DQNAgent.doubleTrainStep upd k a).2.epsilon
            = decayEpsilon a.epsilonMin a.epsilonDecay a.epsilon)) :=
  ⟨by norm_num, by norm_num,
    epsilon_decay_floor (1 / 100) (995 / 1000) 1 (by norm_num) (by norm_num)⟩


/-- C3: for every agent variant, train_step with insufficient buffered
experience (replay buffer shorter than the batch size for the value-based
agents; empty episode or trajectory buffer for the policy-based agents)
returns the zero metric and leaves the whole agent record, including every
network, optimizer state and algorithm scalar, unchanged, for every
external optimizer-step function. -/
theorem trainStep_insufficient_noop :
    (∀ upd k (a : DQNAgent), a.memory.buffer.length < a.batchSize →
      DQNAgent.trainStep upd k a = (0, a))
    ∧ (∀ upd k (a : DQNAgent), a.memory.buffer.length < a.batchSize →
      DQNAgent.doubleTrainStep upd k a = (0, a))
    ∧ (∀ std upd (a : PolicyGradientAgent), a.rewards = [] →
      PolicyGradientAgent.trainStep std upd a = (0, a))
    ∧ (∀ std updActor updCritic (a : ActorCriticAgent), a.rewards = [] →
      ActorCriticAgent.trainStep std updActor updCritic a = ((0, 0), a))
    ∧ (∀ std epochUpd (a : PPOAgent), a.states = [] →
      PPOAgent.trainStep std epochUpd a = ((0, 0, 0), a)) := by
  refine ⟨?_, ?_, ?_, ?_, ?_⟩
  · intro upd k a h
    unfold DQNAgent.trainStep
    rw [if_pos h]
  · intro upd k a h
    unfold DQNAgent.doubleTrainStep
    rw [if_pos h]
  · intro std upd a h
    unfold PolicyGradientAgent.trainStep
    rw [if_pos (by rw [h]; rfl)]
  · intro std updActor updCritic a h
    unfold ActorCriticAgent.trainStep
    rw [if_pos (by rw [h]; rfl)]
  · intro std epochUpd a h
    unfold PPOAgent.trainStep
    rw [if_pos (by rw [h]; rfl)]

/-- Trivial external std primitive used to instantiate train steps. -/
def stdZero : List ℚ → ℚ := fun _ => 0

/-- Trivial external policy optimizer step. -/
def updNoopPg : PolicyGradientAgent → List ℚ → ProbNet × OptState :=
  fun a _ => (a.policyProbs, a.optimizerState)

/-- Trivial external actor optimizer step. -/
def updNoopActor : ActorCriticAgent → List ℚ → ProbNet × OptState :=
  fun a _ => (a.actorProbs, a.actorOptimizer)

/-- Trivial external critic optimizer step. -/
def updNoopCritic : ActorCriticAgent → List ℚ → ValueNet × OptState :=
  fun a _ => (a.critic, a.criticOptimizer)

/-- Trivial external PPO epoch update. -/
def updNoopPpo : PPOAgent → List ℚ → List ℚ → ℕ → (ℚ × ℚ × ℚ) × PolicyValueNet × OptState :=
  fun a _ _ _ => ((0, 0, 0), a.policy, a.optimizerState)

theorem trainStep_insufficient_noop_witness :
    DQNAgent.trainStep updNoop 0 wDqn = (0, wDqn)
    ∧ DQNAgent.doubleTrainStep updNoop 0 wDqn = (0, wDqn)
    ∧ PolicyGradientAgent.trainStep stdZero updNoopPg wPg = (0, wPg)
    ∧ ActorCriticAgent.trainStep stdZero updNoopActor updNoopCritic wAc = ((0, 0), wAc)
    ∧ PPOAgent.trainStep stdZero updNoopPpo wPpo = ((0, 0, 0), wPpo) :=
  ⟨trainStep_insufficient_noop.1 updNoop 0 wDqn (by decide),
    trainStep_insufficient_noop.2.1 updNoop 0 wDqn (by decide),
    trainStep_insufficient_noop.2.2.1 stdZero updNoopPg wPg rfl,
    trainStep_insufficient_noop.2.2.2.1 stdZero updNoopActor updNoopCritic wAc rfl,
    trainStep_insufficient_noop.2.2.2.2 stdZero updNoopPpo wPpo rfl⟩

/-- C4: loading A's state dictionary into a freshly constructed agent B of
matching dimensions reproduces A's greedy (training = false) action choice
for every fixed state and available-action set; the greedy path depends
only on the loaded online Q-network and the (matching) action-space size,
and is deterministic, so it agrees on every call. -/
theorem stateDict_roundtrip_greedy (A B : DQNAgent)
    (hdim : B.actionSize = A.actionSize)
    (s : List ℚ) (avail : List ℕ) (rv : ℚ) (k : ℕ) :
    (B.loadStateDict A.stateDict).selectAction s avail false rv k
      = A.selectAction s avail false rv k := by
  unfold DQNAgent.selectAction DQNAgent.loadStateDict DQNAgent.stateDict
  simp [hdim]

/-- A second freshly constructed agent of the same dimensions as wDqn but
with different networks, exploration rate and optimizer state. -/
def wDqnB : DQNAgent :=
  { wDqn with
    qNetwork := fun _ _ => 5
    targetNetwork := fun _ _ => 1
    epsilon := 1
    optimizerState := [1] }

theorem stateDict_roundtrip_greedy_witness :
    (wDqnB.loadStateDict wDqn.stateDict).selectAction [1, 0] [0, 2] false 0 3
      = wDqn.selectAction [1, 0] [0, 2] false 0 3 :=
  stateDict_roundtrip_greedy wDqn wDqnB rfl [1, 0] [0, 2] 0 3


/-- The transition used by the capacity-zero counterexample. -/
def cexTransition : Transition :=
  { state := [], action := 0, reward := 0, nextState := [], done := false }

/-- C5 counterexample: a replay buffer constructed with capacity 0 (a
deque with maxlen 0) stays empty, so after capacity + 1 = 1 insertion the
last-inserted transition is not present, contradicting the claim as stated
for every capacity. -/
theorem replay_capacity_zero_counterexample :
    ((ReplayBuffer.mk 0 []).push cexTransition).buffer = []
    ∧ cexTransition ∉ ((ReplayBuffer.mk 0 []).push cexTransition).buffer := by
  decide

lemma getLast?_mem_drop_one {α : Type} (xs : List α) (x : α)
    (h : xs.getLast? = some x) (hlen : 2 ≤ xs.length) : x ∈ xs.drop 1 := by
  cases xs with
  | nil => simp at hlen
  | cons a t =>
    cases t with
    | nil => simp at hlen
    | cons b t2 =>
      have h2 : (b :: t2).getLast? = some x := by
        rw [List.getLast?_cons_cons] at h
        exact h
      have hx : x ∈ (b :: t2).getLast? := h2 ▸ rfl
      simpa using List.mem_of_mem_getLast? hx

/-- C5 amended: for every capacity the buffer length never exceeds the
capacity; for capacity at least 1, after capacity + 1 insertions into a
fresh buffer the contents are exactly the last capacity insertions in
order, so the first-inserted occurrence is evicted (FIFO, oldest first)
and the last-inserted transition is present. -/
theorem replayBuffer_fifo (c : ℕ) (xs : List Transition) :
    ((ReplayBuffer.mk c []).pushAll xs).buffer.length ≤ c
    ∧ (1 ≤ c → xs.length = c + 1 →
        ((ReplayBuffer.mk c []).pushAll xs).buffer = xs.drop 1
        ∧ ∀ x, xs.getLast? = some x →
            x ∈ ((ReplayBuffer.mk c []).pushAll xs).buffer) := by
  have hbase : (ReplayBuffer.mk c []).buffer.length ≤ (ReplayBuffer.mk c []).capacity := by
    simp
  have hform := pushAll_buffer xs (ReplayBuffer.mk c []) hbase
  simp only [List.nil_append, List.length_nil, Nat.zero_add] at hform
  constructor
  · rw [hform, List.length_drop]
    omega
  · intro hc hlen
    have h1 : xs.length - c = 1 := by omega
    rw [hform, h1]
    refine ⟨rfl, ?_⟩
    intro x hx
    exact getLast?_mem_drop_one xs x hx (by omega)

theorem replayBuffer_fifo_witness :
    (((ReplayBuffer.mk 2 []).pushAll
        [cexTransition, { cexTransition with action := 1 },
          { cexTransition with action := 2 }]).buffer.length ≤ 2)
    ∧ ((ReplayBuffer.mk 2 []).pushAll
        [cexTransition, { cexTransition with action := 1 },
          { cexTransition with action := 2 }]).buffer
      = [{ cexTransition with action := 1 }, { cexTransition with action := 2 }]
    ∧ { cexTransition with action := 2 }
        ∈ ((ReplayBuffer.mk 2 []).pushAll
          [cexTransition, { cexTransition with action := 1 },
            { cexTransition with action := 2 }]).buffer := by
  have h := replayBuffer_fifo 2
    [cexTransition, { cexTransition with action := 1 }, { cexTransition with action := 2 }]
  obtain ⟨hlen, hrest⟩ := h
  obtain ⟨hbuf, hmem⟩ := hrest (by omega) (by decide)
  exact ⟨hlen, by rw [hbuf]; decide, hmem _ (by decide)⟩


/-- C6: compute_gae appends a bootstrap value 0, walks the rollout backward
with TD residual delta_t = r_t + gamma * V(s_t+1) * (1 - done_t) - V(s_t)
and accumulator A_t = delta_t + gamma * lambda * (1 - done_t) * A_t+1
(with A beyond the rollout equal to 0), and returns returns_t = A_t +
V(s_t); in particular a one-step rollout with done = true yields advantage
reward - V(s), and with lambda = 0 every advantage equals the one-step TD
residual. -/
theorem computeGae_spec (a : PPOAgent)
    (h1 : a.rewards.length = a.values.length)
    (h2 : a.dones.length = a.values.length) :
    (∀ t, t < a.rewards.length →
      a.computeGae.1.getD t 0 =
        (a.rewards.getD t 0
          + a.gamma * (a.values ++ [0]).getD (t + 1) 0
            * (1 - doneInd (a.dones.getD t false))
          - a.values.getD t 0)
        + a.gamma * a.gaeLambda * (1 - doneInd (a.dones.getD t false))
          * a.computeGae.1.getD (t + 1) 0)
    ∧ (∀ t, t < a.rewards.length →
      a.computeGae.2.getD t 0 = a.computeGae.1.getD t 0 + a.values.getD t 0)
    ∧ (∀ r v, a.rewards = [r] → a.values = [v] → a.dones = [true] →
      a.computeGae.1 = [r - v])
    ∧ (a.gaeLambda = 0 → ∀ t, t < a.rewards.length →
      a.computeGae.1.getD t 0 =
        a.rewards.getD t 0
          + a.gamma * (a.values ++ [0]).getD (t + 1) 0
            * (1 - doneInd (a.dones.getD t false))
          - a.values.getD t 0) := by
  have hd : a.dones.length = a.rewards.length := h2.trans h1.symm
  have hv : (a.values ++ [0]).length = a.rewards.length + 1 := by
    rw [List.length_append, h1]
    rfl
  have hlenadv : a.computeGae.1.length = a.rewards.length := by
    show (gaeList a.gamma a.gaeLambda a.rewards a.dones (a.values ++ [0])).length
      = a.rewards.length
    exact gaeList_length_eq a.gamma a.gaeLambda a.rewards a.dones (a.values ++ [0]) hd hv
  have hrec : ∀ t, t < a.rewards.length →
      a.computeGae.1.getD t 0 =
        (a.rewards.getD t 0
          + a.gamma * (a.values ++ [0]).getD (t + 1) 0
            * (1 - doneInd (a.dones.getD t false))
          - a.values.getD t 0)
        + a.gamma * a.gaeLambda * (1 - doneInd (a.dones.getD t false))
          * a.computeGae.1.getD (t + 1) 0 := by
    intro t ht
    have hmain := gaeList_getD a.gamma a.gaeLambda a.rewards a.dones (a.values ++ [0]) t hd hv ht
    have hvt : (a.values ++ [0]).getD t 0 = a.values.getD t 0 := by
      refine List.getD_append a.values [0] 0 t ?_
      rw [← h1]
      exact ht
    show (gaeList a.gamma a.gaeLambda a.rewards a.dones (a.values ++ [0])).getD t 0 = _
    rw [hmain, hvt]
    rfl
  refine ⟨hrec, ?_, ?_, ?_⟩
  · intro t ht
    have hta : t < a.computeGae.1.length := by rw [hlenadv]; exact ht
    have htv : t < a.values.length := by rw [← h1]; exact ht
    show (List.zipWith (fun adv v => adv + v) a.computeGae.1 a.values).getD t 0
      = a.computeGae.1.getD t 0 + a.values.getD t 0
    exact getD_zipWith_add a.computeGae.1 a.values t hta htv
  · intro r v hr hvv hdn
    show gaeList a.gamma a.gaeLambda a.rewards a.dones (a.values ++ [0]) = [r - v]
    rw [hr, hvv, hdn]
    show [(r + a.gamma * ([(0 : ℚ)].headD 0) * (1 - doneInd true) - v)
      + a.gamma * a.gaeLambda * (1 - doneInd true)
        * (gaeList a.gamma a.gaeLambda [] [] [0]).headD 0] = [r - v]
    have hnil : gaeList a.gamma a.gaeLambda [] [] [0] = [] := rfl
    rw [hnil]
    simp [doneInd]
  · intro hlam t ht
    have h := hrec t ht
    rw [hlam] at h
    rw [h]
    ring

/-- Concrete PPO agent with a two-step rollout used by the GAE witness. -/
def wPpoGae : PPOAgent :=
  { wPpo with
    states := [[1], [2]]
    actions := [0, 1]
    rewards := [1, 2]
    values := [3, 4]
    logProbs := [0, 0]
    dones := [false, true]
    gamma := 1 / 2
    gaeLambda := 0 }

theorem computeGae_spec_witness :
    wPpoGae.rewards.length = wPpoGae.values.length
    ∧ wPpoGae.dones.length = wPpoGae.values.length
    ∧ ((∀ t, t < wPpoGae.rewards.length →
        wPpoGae.computeGae.1.getD t 0 =
          (wPpoGae.rewards.getD t 0
            + wPpoGae.gamma * (wPpoGae.values ++ [0]).getD (t + 1) 0
              * (1 - doneInd (wPpoGae.dones.getD t false))
            - wPpoGae.values.getD t 0)
          + wPpoGae.gamma * wPpoGae.gaeLambda
            * (1 - doneInd (wPpoGae.dones.getD t false))
            * wPpoGae.computeGae.1.getD (t + 1) 0)
      ∧ (∀ t, t < wPpoGae.rewards.length →
        wPpoGae.computeGae.2.getD t 0
          = wPpoGae.computeGae.1.getD t 0 + wPpoGae.values.getD t 0)
      ∧ (∀ r v, wPpoGae.rewards = [r] → wPpoGae.values = [v] →
        wPpoGae.dones = [true] → wPpoGae.computeGae.1 = [r - v])
      ∧ (wPpoGae.gaeLambda = 0 → ∀ t, t < wPpoGae.rewards.length →
        wPpoGae.computeGae.1.getD t 0 =
          wPpoGae.rewards.getD t 0
            + wPpoGae.gamma * (wPpoGae.values ++ [0]).getD (t + 1) 0
              * (1 - doneInd (wPpoGae.dones.getD t false))
            - wPpoGae.values.getD t 0)) :=
  ⟨rfl, rfl, computeGae_spec wPpoGae rfl rfl⟩


lemma argmaxAction_le (f : ℕ → ℚ) (n : ℕ) (b : ℕ) (hb : b < n) :
    f b ≤ f (argmaxAction f n) := by
  have hbn : b ∈ List.range n := List.mem_range.mpr hb
  have hrange : (List.range n) ≠ [] := List.ne_nil_of_mem hbn
  obtain ⟨m, hm⟩ : ∃ m, (List.range n).argmax f = some m := by
    rcases Option.eq_none_or_eq_some ((List.range n).argmax f) with h | ⟨m, hm⟩
    · exact absurd (List.argmax_eq_none.mp h) hrange
    · exact ⟨m, hm⟩
  have hg : argmaxAction f n = m := by
    unfold argmaxAction
    rw [hm]
    rfl
  rw [hg]
  exact List.le_of_mem_argmax hbn hm

/-- C7: the Double DQN train_step computes its per-transition bootstrap
target as reward + (1 - done) * gamma * targetNet(nextState, aStar), where
aStar maximizes the online network at the next state; the target is
computed from the frozen network values under no_grad, so no gradient
flows through it, which the embedding models by treating the target as a
constant of the loss.  The last conjunct ties the formula to the loss that
doubleTrainStep actually computes on a completed update. -/
theorem doubleDqn_target (qnet tnet : QNet) (g : ℚ) (n : ℕ)
    (t : Transition) :
    (∀ b, b < n →
      qnet t.nextState b ≤ qnet t.nextState (argmaxAction (qnet t.nextState) n))
    ∧ doubleDqnTargetOne qnet tnet g n t
      = t.reward + (1 - doneInd t.done) * g
        * tnet t.nextState (argmaxAction (qnet t.nextState) n)
    ∧ (∀ upd k (a : DQNAgent), ¬ a.memory.buffer.length < a.batchSize →
      (DQNAgent.doubleTrainStep upd k a).1
        = mseLoss
          ((sampleBatch a.memory.buffer a.batchSize k).map
            fun tr => a.qNetwork tr.state tr.action)
          ((sampleBatch a.memory.buffer a.batchSize k).map
            (doubleDqnTargetOne a.qNetwork a.targetNetwork a.gamma a.actionSize))) := by
  refine ⟨?_, rfl, ?_⟩
  · intro b hb
    exact argmaxAction_le (qnet t.nextState) n b hb
  · intro upd k a h
    unfold DQNAgent.doubleTrainStep
    rw [if_neg h]

theorem doubleDqn_target_witness :
    ((∀ b, b < 2 →
      (fun (_ : List ℚ) (i : ℕ) => (i : ℚ)) cexTransition.nextState b
        ≤ (fun (_ : List ℚ) (i : ℕ) => (i : ℚ)) cexTransition.nextState
          (argmaxAction ((fun (_ : List ℚ) (i : ℕ) => (i : ℚ)) cexTransition.nextState) 2))
    ∧ doubleDqnTargetOne (fun _ i => (i : ℚ)) (fun _ _ => (7 : ℚ)) (1 / 2) 2 cexTransition
      = cexTransition.reward + (1 - doneInd cexTransition.done) * (1 / 2)
        * (fun (_ : List ℚ) (_ : ℕ) => (7 : ℚ)) cexTransition.nextState
          (argmaxAction ((fun (_ : List ℚ) (i : ℕ) => (i : ℚ)) cexTransition.nextState) 2)
    ∧ (∀ upd k (a : DQNAgent), ¬ a.memory.buffer.length < a.batchSize →
      (DQNAgent.doubleTrainStep upd k a).1
        = mseLoss
          ((sampleBatch a.memory.buffer a.batchSize k).map
            fun tr => a.qNetwork tr.state tr.action)
          ((sampleBatch a.memory.buffer a.batchSize k).map
            (doubleDqnTargetOne a.qNetwork a.targetNetwork a.gamma a.actionSize)))) :=
  doubleDqn_target (fun _ i => (i : ℚ)) (fun _ _ => (7 : ℚ)) (1 / 2) 2 cexTransition

/-- The opaque randomly initialized network used when instantiating the
constructors. -/
def qZero : QNet := fun _ _ => 0

/-- C8 failing input: the Dueling DQN constructor receives learning rate
1/100 but rebuilds its optimizer with the hardcoded rate 1/1000
(dqn.py line 230), while the base DQN constructor configures its optimizer
with the supplied 1/100; so the Dueling update is not identical to the
base update for every constructor hyperparameter setting.  The final
conjunct records the structural half of the claim: the dueling head
combines the streams as Q = V + (A - mean(A)). -/
theorem dueling_hardcoded_lr :
    (mkDuelingDQNAgent 4 2 (1 / 100) (99 / 100) 1 (1 / 100) (995 / 1000)
      10000 32 10 qZero [] qZero).lr = 1 / 1000
    ∧ (mkDQNAgent 4 2 (1 / 100) (99 / 100) 1 (1 / 100) (995 / 1000)
      10000 32 10 qZero []).lr = 1 / 100
    ∧ ((1 : ℚ) / 1000 ≠ 1 / 100)
    ∧ (∀ (v : ℚ) (adv : ℕ → ℚ) (act : ℕ),
        duelingForward v adv 2 act = v + (adv act - (adv 0 + adv 1) / 2)) := by
  refine ⟨rfl, rfl, by norm_num, ?_⟩
  intro v adv act
  unfold duelingForward
  have hr : ((List.range 2).map adv).sum = adv 0 + adv 1 := by
    show adv 0 + (adv 1 + 0) = adv 0 + adv 1
    ring
  rw [hr]
  norm_num



/-- C9: CheckpointManager.load accepts either a bare checkpoint name or a
direct file path (an existing path is used as is, otherwise the location
derives from the checkpoint directory and name), and whenever no
checkpoint exists at either location it returns the explicit absent value
None and never raises: the body runs inside try/except, so even a
throwing torch.load deserializer yields None rather than an exception,
for every torch.load behavior. -/
theorem checkpointLoad_absent (Blob Snap Err : Type)
    (torchLoad : Blob → Except Err Snap) (fs : List (String × Blob))
    (dir name : String) :
    (fs.lookup name = none → fs.lookup (dir ++ "/" ++ name ++ ".pt") = none →
      checkpointLoad torchLoad fs dir name = none)
    ∧ (∀ b, fs.lookup name = some b →
      checkpointLoad torchLoad fs dir name
        = match torchLoad b with
          | Except.ok s => some s
          | Except.error _ => none) := by
  constructor
  · intro h1 h2
    unfold checkpointLoad
    simp only [h1, Option.isSome_none, Bool.false_eq_true, if_false, h2]
  · intro b hb
    unfold checkpointLoad
    simp only [hb, Option.isSome_some, if_true]
    cases htl : torchLoad b with
    | ok s => simp [Except.map]
    | error e => simp [Except.map]

/-- A torch.load model that succeeds on every blob. -/
def wTorchLoad : ℕ → Except Unit ℕ := fun b => Except.ok b

/-- A one-checkpoint filesystem. -/
def wFs : List (String × ℕ) := [("ckpt/m.pt", 5)]

/-- The checkpoint directory of the witness manager. -/
def wDir : String := "ckpt"

/-- A checkpoint name with no stored checkpoint. -/
def wMissing : String := "absent"

/-- A direct path to the stored checkpoint. -/
def wPath : String := "ckpt/m.pt"

theorem checkpointLoad_absent_witness :
    checkpointLoad wTorchLoad wFs wDir wMissing = none
    ∧ checkpointLoad wTorchLoad wFs wDir wPath = some 5 :=
  ⟨(checkpointLoad_absent ℕ ℕ Unit wTorchLoad wFs wDir wMissing).1 rfl
      (by decide),
    ((checkpointLoad_absent ℕ ℕ Unit wTorchLoad wFs wDir wPath).2 5 rfl).trans rfl⟩

/-- C10 counterexample: save's metadata branch tests Python truthiness,
under which a supplied empty metadata dictionary is falsy, so the call
inserts no metadata key even though a metadata argument was supplied. -/
theorem save_empty_metadata_counterexample :
    (some ([] : List (String × String))).isSome = true
    ∧ (checkpointSave ("t0") [] (some [])).lookup ("metadata") = none
    ∧ (checkpointSave ("t0") [] (some [])).lookup ("timestamp")
        = some (PyVal.str ("t0")) := by
  refine ⟨rfl, ?_, ?_⟩ <;> decide

/-- C10 amended: save mutates the caller's checkpoint dictionary in place:
it always assigns the server-assigned timestamp under the timestamp key
(so the dictionary observably differs whenever it did not already hold
that exact entry), and when a supplied metadata argument is non-empty it
also assigns the metadata key; no existing key is removed and no key
other than these two is added. -/
theorem checkpointSave_mutation (ts : String) (ckpt : PyDict)
    (md : Option (List (String × String))) :
    (checkpointSave ts ckpt md).lookup ("timestamp") = some (PyVal.str ts)
    ∧ (∀ m, md = some m → m ≠ [] →
        (checkpointSave ts ckpt md).lookup ("metadata")
          = some (PyVal.metaDict m))
    ∧ (∀ k, (ckpt.lookup k).isSome →
        ((checkpointSave ts ckpt md).lookup k).isSome)
    ∧ (∀ k, ((checkpointSave ts ckpt md).lookup k).isSome →
        (ckpt.lookup k).isSome ∨ k = "timestamp" ∨ k = "metadata") := by
  refine ⟨?_, ?_, ?_, ?_⟩
  · exact lookup_setKey_self _ _ _
  · intro m hm hne
    subst hm
    cases m with
    | nil => exact absurd rfl hne
    | cons x xs =>
      unfold checkpointSave
      rw [lookup_setKey_ne _ _ _ _ (by decide)]
      exact lookup_setKey_self ckpt _ (PyVal.metaDict (x :: xs))
  · intro k hk
    by_cases ht : k = "timestamp"
    · subst ht
      unfold checkpointSave
      rw [lookup_setKey_self]
      rfl
    · unfold checkpointSave
      rw [lookup_setKey_ne _ _ _ _ ht]
      by_cases hmd : metadataTruthy md = true
      · rw [if_pos hmd]
        by_cases hm2 : k = "metadata"
        · subst hm2
          rw [lookup_setKey_self]
          rfl
        · rw [lookup_setKey_ne _ _ _ _ hm2]
          exact hk
      · rw [if_neg hmd]
        exact hk
  · intro k hk
    by_cases ht : k = "timestamp"
    · exact Or.inr (Or.inl ht)
    · by_cases hm2 : k = "metadata"
      · exact Or.inr (Or.inr hm2)
      · left
        unfold checkpointSave at hk
        rw [lookup_setKey_ne _ _ _ _ ht] at hk
        by_cases hmd : metadataTruthy md = true
        · rw [if_pos hmd, lookup_setKey_ne _ _ _ _ hm2] at hk
          exact hk
        · rw [if_neg hmd] at hk
          exact hk

theorem checkpointSave_mutation_witness :
    (checkpointSave ("T") [(("episode"), PyVal.payload 3)]
        (some [(("note"), ("x"))])).lookup ("timestamp") = some (PyVal.str ("T"))
    ∧ (∀ m, (some [(("note"), ("x"))] : Option (List (String × String))) = some m →
        m ≠ [] →
        (checkpointSave ("T") [(("episode"), PyVal.payload 3)]
          (some [(("note"), ("x"))])).lookup ("metadata")
          = some (PyVal.metaDict m))
    ∧ (∀ k, (([(("episode"), PyVal.payload 3)] : PyDict).lookup k).isSome →
        ((checkpointSave ("T") [(("episode"), PyVal.payload 3)]
          (some [(("note"), ("x"))])).lookup k).isSome)
    ∧ (∀ k, ((checkpointSave ("T") [(("episode"), PyVal.payload 3)]
          (some [(("note"), ("x"))])).lookup k).isSome →
        (([(("episode"), PyVal.payload 3)] : PyDict).lookup k).isSome
          ∨ k = "timestamp" ∨ k = "metadata") :=
  checkpointSave_mutation ("T") [(("episode"), PyVal.payload 3)]
    (some [(("note"), ("x"))])

